import Mathlib

/-!
The Groebner engine `dd::grobner` of src/math/grobner/pdd_grobner.h.

A shallow embedding of the inline part of the Groebner engine's header: the
configuration record, the equation object with its accessors and mutators, the
classification predicates (`is_trivial`, `is_conflict`, `is_too_complex`,
`is_simpler`), and the conflict bookkeeping (`set_conflict`, `check_conflict`).
The operations the header only declares (`push_equation`, `pop_equation`, the
two-argument `add`, `try_simplify_using`, `superpose`) are modelled from the
specification and marked so.

Conventions.
* `unsigned` values are natural numbers below `2 ^ 32`; `UINT_MAX = 2 ^ 32 - 1`.
* `equation*` / `equation&` are addresses (`Nat`) into an explicit object store
  (`grobner.heap`); a `ptr_vector<equation>` is a list of addresses.
* `u_dependency*` is `Option u_dependency`, the null pointer being `none`.
* The members `m_limit`, `m_stats`, `m_print_dep`, `m_dep_manager` and the tuned-mode
  tables are not read or written by any function embedded here and are left out.
-/

namespace dd

/-- The largest value of the C type `unsigned` (32 bits). -/
def UINT_MAX : Nat := 4294967295

/-- Modelled from the spec: the polynomial manager, whose header math/dd/dd_pdd.h is
not among the sources. Only the observations of a polynomial that pdd_grobner.h calls
are kept: `is_zero` (identically zero), `is_val` (a constant), `tree_size` (the
structural size) and the ordering `<`. The size is a natural number not confined to
32 bits: the header stores the largest size seen in the `double` field
`stats::m_max_expr_size`, next to the `unsigned` field `m_max_expr_degree`. -/
structure pdd_manager (pdd : Type) where
  is_zero : pdd → Bool
  is_val : pdd → Bool
  tree_size : pdd → Nat
  lt : pdd → pdd → Bool

/-- The anonymous enum of `config::m_algorithm`. -/
inductive grobner.config.algorithm where
  | basic
  | tuned
  deriving DecidableEq, Repr

/-- The record `grobner::config`. -/
structure grobner.config where
  m_eqs_threshold : Nat
  m_expr_size_limit : Nat
  m_algorithm : grobner.config.algorithm
  deriving DecidableEq, Repr

/-- The default constructor `config()`. -/
def grobner.config.ctor : grobner.config :=
  { m_eqs_threshold := UINT_MAX
    m_expr_size_limit := UINT_MAX
    m_algorithm := grobner.config.algorithm.tuned }

/-- The enum `grobner::eq_state`. -/
inductive grobner.eq_state where
  | solved
  | processed
  | to_simplify
  deriving DecidableEq, Repr

/-- The class `grobner::equation`. -/
structure grobner.equation (pdd u_dependency : Type) where
  m_state : grobner.eq_state
  m_idx : Nat
  m_poly : pdd
  m_dep : Option u_dependency
  deriving DecidableEq, Repr

namespace grobner.equation

variable {pdd u_dependency : Type}

/-- The constructor `equation(pdd const& p, u_dependency* d)`. -/
def ctor (p : pdd) (d : Option u_dependency) : equation pdd u_dependency :=
  { m_state := eq_state.to_simplify
    m_idx := 0
    m_poly := p
    m_dep := d }

/-- The accessor `poly()`. -/
def poly (e : equation pdd u_dependency) : pdd := e.m_poly

/-- The accessor `dep()`. -/
def dep (e : equation pdd u_dependency) : Option u_dependency := e.m_dep

/-- The accessor `idx()`. -/
def idx (e : equation pdd u_dependency) : Nat := e.m_idx

/-- The accessor `state()`. -/
def state (e : equation pdd u_dependency) : eq_state := e.m_state

/-- The mutator `operator=(pdd const& p)`. -/
def assign_poly (e : equation pdd u_dependency) (p : pdd) : equation pdd u_dependency :=
  { e with m_poly := p }

/-- The mutator `operator=(u_dependency* d)`. -/
def assign_dep (e : equation pdd u_dependency) (d : Option u_dependency) :
    equation pdd u_dependency :=
  { e with m_dep := d }

/-- The mutator `set_state(eq_state st)`. -/
def set_state (e : equation pdd u_dependency) (st : eq_state) : equation pdd u_dependency :=
  { e with m_state := st }

/-- The mutator `set_index(unsigned idx)`. -/
def set_index (e : equation pdd u_dependency) (i : Nat) : equation pdd u_dependency :=
  { e with m_idx := i }

end grobner.equation

/-- The class `grobner`: the manager reference `m`, the configuration, the three
collections, the master list, the conflict slot, and the store holding the equation
objects the pointers refer to (`next_addr` is the allocator's next free address). -/
structure grobner (pdd u_dependency : Type) where
  m : pdd_manager pdd
  m_config : grobner.config
  m_solved : List Nat
  m_processed : List Nat
  m_to_simplify : List Nat
  m_all_eqs : List Nat
  m_conflict : Option Nat
  heap : Nat → Option (grobner.equation pdd u_dependency)
  next_addr : Nat

namespace grobner

variable {pdd u_dependency : Type}

/-- The assignment `operator=(config const& c)`. -/
def assign_config (g : grobner pdd u_dependency) (c : config) : grobner pdd u_dependency :=
  { g with m_config := c }

/-- The member `is_trivial(equation const& eq)`. -/
def is_trivial (g : grobner pdd u_dependency) (eq : equation pdd u_dependency) : Bool :=
  g.m.is_zero eq.poly

/-- The member `is_simpler(equation const& eq1, equation const& eq2)`. -/
def is_simpler (g : grobner pdd u_dependency) (eq1 eq2 : equation pdd u_dependency) : Bool :=
  g.m.lt eq1.poly eq2.poly

/-- The member `is_conflict(equation const& eq)`. -/
def is_conflict (g : grobner pdd u_dependency) (eq : equation pdd u_dependency) : Bool :=
  g.m.is_val eq.poly && !g.is_trivial eq

/-- The member `is_conflict(equation const* eq)`: the pointer is dereferenced in the
store; there is no result for an address holding no equation. -/
def is_conflict_ptr (g : grobner pdd u_dependency) (e : Nat) : Option Bool :=
  (g.heap e).map g.is_conflict

/-- The member `is_too_complex(const pdd& p)`. -/
def is_too_complex_pdd (g : grobner pdd u_dependency) (p : pdd) : Bool :=
  decide (g.m.tree_size p > g.m_config.m_expr_size_limit)

/-- The member `is_too_complex(const equation& eq)`. -/
def is_too_complex (g : grobner pdd u_dependency) (eq : equation pdd u_dependency) : Bool :=
  g.is_too_complex_pdd eq.poly

/-- The member `is_tuned()`. -/
def is_tuned (g : grobner pdd u_dependency) : Bool :=
  decide (g.m_config.m_algorithm = config.algorithm.tuned)

/-- The member `is_basic()`. -/
def is_basic (g : grobner pdd u_dependency) : Bool :=
  decide (g.m_config.m_algorithm = config.algorithm.basic)

/-- Writing through an `equation&`: the object at address `e` is replaced by its image
under `f`; every other object is untouched. -/
def modify (g : grobner pdd u_dependency) (e : Nat)
    (f : equation pdd u_dependency → equation pdd u_dependency) : grobner pdd u_dependency :=
  { g with heap := fun a => if a = e then (g.heap a).map f else g.heap a }

/-- The collection named by a state. -/
def queue (g : grobner pdd u_dependency) : eq_state → List Nat
  | eq_state.solved => g.m_solved
  | eq_state.processed => g.m_processed
  | eq_state.to_simplify => g.m_to_simplify

/-- Modelled from the spec: `get_queue(equation const& eq)` is declared in the header and
defined in pdd_grobner.cpp, which is not among the sources. It is the collection that
currently holds the equation, selected by its state field. -/
def get_queue (g : grobner pdd u_dependency) (eq : equation pdd u_dependency) : List Nat :=
  g.queue eq.state

/-- Modelled from the spec: `push_equation(eq_state st, equation& eq)` is declared in the
header and defined in pdd_grobner.cpp, which is not among the sources. It sets the state
field of the equation and inserts the equation into the collection named by `st`. -/
def push_equation (g : grobner pdd u_dependency) (st : eq_state) (e : Nat) :
    grobner pdd u_dependency :=
  let g1 := g.modify e (fun eq => eq.set_state st)
  match st with
  | eq_state.solved => { g1 with m_solved := g1.m_solved ++ [e] }
  | eq_state.processed => { g1 with m_processed := g1.m_processed ++ [e] }
  | eq_state.to_simplify => { g1 with m_to_simplify := g1.m_to_simplify ++ [e] }

/-- Modelled from the spec: `pop_equation(equation& eq)` is declared in the header and
defined in pdd_grobner.cpp, which is not among the sources. It removes the equation from
the collection named by its state field. -/
def pop_equation (g : grobner pdd u_dependency) (e : Nat) : grobner pdd u_dependency :=
  match g.heap e with
  | none => g
  | some eq =>
    match eq.state with
    | eq_state.solved => { g with m_solved := g.m_solved.erase e }
    | eq_state.processed => { g with m_processed := g.m_processed.erase e }
    | eq_state.to_simplify => { g with m_to_simplify := g.m_to_simplify.erase e }

/-- The members `set_conflict(equation& eq)` and `set_conflict(equation* eq)`. -/
def set_conflict (g : grobner pdd u_dependency) (e : Nat) : grobner pdd u_dependency :=
  push_equation { g with m_conflict := some e } eq_state.solved e

/-- The member `check_conflict(equation& eq)`: the result, and the engine afterwards.
Nothing happens at an address holding no equation. -/
def check_conflict (g : grobner pdd u_dependency) (e : Nat) :
    Bool × grobner pdd u_dependency :=
  match g.heap e with
  | none => (false, g)
  | some eq => if g.is_conflict eq then (true, g.set_conflict e) else (false, g)

/-- Modelled from the spec: `add(pdd const& p, u_dependency* dep)` is declared in the
header and defined in pdd_grobner.cpp, which is not among the sources. It constructs a
new equation, assigns it the next ordinal, records it in `m_all_eqs` and inserts it into
`to_simplify`. -/
def add_dep (g : grobner pdd u_dependency) (p : pdd) (d : Option u_dependency) :
    grobner pdd u_dependency :=
  let a := g.next_addr
  let eq := (equation.ctor p d).set_index g.m_all_eqs.length
  let g1 : grobner pdd u_dependency :=
    { g with
      heap := fun b => if b = a then some eq else g.heap b
      next_addr := a + 1
      m_all_eqs := g.m_all_eqs ++ [a] }
  g1.push_equation eq_state.to_simplify a

/-- The member `add(pdd const& p)`. -/
def add (g : grobner pdd u_dependency) (p : pdd) : grobner pdd u_dependency :=
  g.add_dep p none

/-- The membership invariant at one address: an equation stored there is a member of the
collection named by its state field and of no other collection. -/
def exclusive_at (g : grobner pdd u_dependency) (a : Nat) : Prop :=
  ∀ eq, g.heap a = some eq → a ∈ g.queue eq.state ∧ ∀ st, a ∈ g.queue st → st = eq.state

/-- The membership invariant: every live equation is a member of exactly one of
`to_simplify`, `processed`, `solved`, the one named by its state field. -/
def invariant (g : grobner pdd u_dependency) : Prop :=
  ∀ a, g.exclusive_at a

end grobner

/-- Modelled from the spec: a sample of the polynomial type `pdd` (math/dd/dd_pdd.h is
not among the sources), used for concrete instances only: a decision diagram unfolded as
a tree, `node v lo hi` standing for `v * hi + lo` and `val c` for the constant `c`. -/
inductive pdd_tree where
  | val (c : Int)
  | node (v : Nat) (lo hi : pdd_tree)
  deriving DecidableEq, Repr

namespace pdd_tree

/-- The number of nodes of the tree. -/
def tree_size : pdd_tree → Nat
  | val _ => 1
  | node _ lo hi => 1 + tree_size lo + tree_size hi

/-- A constant is a leaf. -/
def is_val : pdd_tree → Bool
  | val _ => true
  | node _ _ _ => false

/-- The zero polynomial is the leaf `0`. -/
def is_zero : pdd_tree → Bool
  | val c => decide (c = 0)
  | node _ _ _ => false

/-- A sample ordering: by size. -/
def lt (p q : pdd_tree) : Bool := decide (tree_size p < tree_size q)

/-- The sample manager over trees. -/
def manager : pdd_manager pdd_tree :=
  { is_zero := is_zero, is_val := is_val, tree_size := tree_size, lt := lt }

/-- The product `(x_0 + 1) * ... * (x_(n-1) + 1)`: both branches of every node are
the product over the variables below. -/
def full : Nat → pdd_tree
  | 0 => val 1
  | n + 1 => node n (full n) (full n)

end pdd_tree

/-- A freshly constructed engine over the sample manager: default configuration, no
equation. -/
def grobner.sample : grobner pdd_tree Nat :=
  { m := pdd_tree.manager
    m_config := grobner.config.ctor
    m_solved := []
    m_processed := []
    m_to_simplify := []
    m_all_eqs := []
    m_conflict := none
    heap := fun _ => none
    next_addr := 0 }

/-! ## Derivation of equations: justifications, arithmetic, rewriting, superposition -/

/-- Modelled from the spec: the justification type of util/dependency.h, which is not
among the sources: a set of input-fact identifiers, kept as the list of its members. -/
abbrev fact_set : Type := List Nat

/-- Modelled from the spec: the input facts a justification pointer names; the null
pointer, "no external fact", names none. -/
def dep_facts (d : Option fact_set) : List Nat :=
  d.getD []

/-- Modelled from the spec: the union of two justifications, the join of the dependency
manager. -/
def mk_join (d1 d2 : Option fact_set) : Option fact_set :=
  match d1, d2 with
  | none, d => d
  | some a, none => some a
  | some a, some b => some (a ++ b)

/-- Modelled from the spec: the arithmetic of the polynomial manager (math/dd/dd_pdd.h
is not among the sources): the value of a polynomial under an assignment of the
variables, subtraction, multiplication, the multiple `quot target source` of the source
that rewriting subtracts from the target (present when the leading term of the source
divides a term of the target), and the two cofactors `spoly p q` of the S-polynomial
(present when the leading terms of `p` and `q` share a common factor). -/
structure pdd_arith (pdd R : Type) where
  eval : (Nat → R) → pdd → R
  sub : pdd → pdd → pdd
  mul : pdd → pdd → pdd
  quot : pdd → pdd → Option pdd
  spoly : pdd → pdd → Option (pdd × pdd)

/-- Evaluation is compatible with subtraction and multiplication. -/
def pdd_arith.lawful {pdd R : Type} [CommRing R] (A : pdd_arith pdd R) : Prop :=
  (∀ σ p q, A.eval σ (A.sub p q) = A.eval σ p - A.eval σ q) ∧
  (∀ σ p q, A.eval σ (A.mul p q) = A.eval σ p * A.eval σ q)

namespace grobner

variable {pdd R : Type}

/-- The member `retire(equation* eq)`: the object is deallocated. -/
def retire {u_dependency : Type} (g : grobner pdd u_dependency) (e : Nat) :
    grobner pdd u_dependency :=
  { g with heap := fun a => if a = e then none else g.heap a }

/-- Modelled from the spec: `try_simplify_using(equation& target, equation const& source,
bool& changed_leading_term)` is declared in the header and defined in pdd_grobner.cpp,
which is not among the sources. If the leading term of the source divides a term of the
target, the polynomial of the target becomes the target minus the multiple of the source
and its justification the union with the justification of the source. The result says
whether rewriting occurred; the leading-term flag, which only drives re-indexing, is
not represented. -/
def try_simplify_using (A : pdd_arith pdd R) (g : grobner pdd fact_set)
    (target source : Nat) : Bool × grobner pdd fact_set :=
  match g.heap target, g.heap source with
  | some t, some s =>
    match A.quot t.poly s.poly with
    | none => (false, g)
    | some q =>
      (true, g.modify target (fun eq =>
        (eq.assign_poly (A.sub t.poly (A.mul q s.poly))).assign_dep (mk_join t.dep s.dep)))
  | _, _ => (false, g)

/-- Modelled from the spec: `superpose(equation const& eq1, equation const& eq2)` is
declared in the header and defined in pdd_grobner.cpp, which is not among the sources.
When the leading terms share a common factor, the combination that cancels the shared
part is computed, with the union of both justifications; if it is non-trivial and not
too complex it is enqueued into `to_simplify` as a new equation. -/
def superpose (A : pdd_arith pdd R) (g : grobner pdd fact_set) (e1 e2 : Nat) :
    grobner pdd fact_set :=
  match g.heap e1, g.heap e2 with
  | some eq1, some eq2 =>
    match A.spoly eq1.poly eq2.poly with
    | none => g
    | some (a, b) =>
      let r := A.sub (A.mul a eq1.poly) (A.mul b eq2.poly)
      if g.m.is_zero r || g.is_too_complex_pdd r then g
      else g.add_dep r (mk_join eq1.dep eq2.dep)
  | _, _ => g

/-- The operations by which the engine produces, rewrites and moves equations: the
caller's `add`, and the steps `simplify()` and `saturate()` are made of. -/
inductive op (pdd : Type) where
  | add (p : pdd) (d : Option fact_set)
  | simplify_using (target source : Nat)
  | superpose (e1 e2 : Nat)
  | push_equation (st : eq_state) (e : Nat)
  | pop_equation (e : Nat)
  | check_conflict (e : Nat)
  | retire (e : Nat)

/-- One operation. -/
def exec (A : pdd_arith pdd R) (g : grobner pdd fact_set) : op pdd → grobner pdd fact_set
  | op.add p d => g.add_dep p d
  | op.simplify_using target source => (g.try_simplify_using A target source).2
  | op.superpose e1 e2 => g.superpose A e1 e2
  | op.push_equation st e => g.push_equation st e
  | op.pop_equation e => g.pop_equation e
  | op.check_conflict e => (g.check_conflict e).2
  | op.retire e => g.retire e

/-- A sequence of operations, in order. -/
def run (A : pdd_arith pdd R) (g : grobner pdd fact_set) (ops : List (op pdd)) :
    grobner pdd fact_set :=
  ops.foldl (exec A) g

/-- The equalities the caller asserted in a sequence of operations, each with its
justification. -/
def asserted : List (op pdd) → List (pdd × Option fact_set)
  | [] => []
  | op.add p d :: ops => (p, d) :: asserted ops
  | _ :: ops => asserted ops

/-- An assignment satisfies the asserted equalities named by a justification: every
asserted equality all of whose facts are among those of the justification has value
zero. -/
def satisfies [Zero R] (A : pdd_arith pdd R) (σ : Nat → R)
    (inputs : List (pdd × Option fact_set)) (d : Option fact_set) : Prop :=
  ∀ p dp, (p, dp) ∈ inputs → dep_facts dp ⊆ dep_facts d → A.eval σ p = 0

/-- Soundness of an engine state: the polynomial of every equation in the store has
value zero under every assignment that satisfies the asserted equalities named by the
justification of the equation. -/
def sound [Zero R] (A : pdd_arith pdd R) (inputs : List (pdd × Option fact_set))
    (g : grobner pdd fact_set) : Prop :=
  ∀ a eq, g.heap a = some eq → ∀ σ, satisfies A σ inputs eq.dep → A.eval σ eq.poly = 0

end grobner

/-- Modelled from the spec: a second sample of the polynomial type `pdd`, with its
arithmetic, used for concrete instances only: the polynomials in the single variable
`x_0` over the integers, as the list of coefficients from the constant term upwards,
without trailing zeros. -/
abbrev upoly : Type := List Int

namespace upoly

/-- Removal of trailing zero coefficients. -/
def trim : List Int → List Int
  | [] => []
  | a :: l => if trim l = [] ∧ a = 0 then [] else a :: trim l

/-- Coefficientwise sum. -/
def add : List Int → List Int → List Int
  | [], q => q
  | a :: p, [] => a :: p
  | a :: p, b :: q => (a + b) :: add p q

/-- Multiplication by a constant. -/
def smul (c : Int) (p : List Int) : List Int :=
  p.map (fun a => c * a)

/-- The product, before trimming. -/
def mul_raw : List Int → List Int → List Int
  | [], _ => []
  | a :: p, q => add (smul a q) (0 :: mul_raw p q)

/-- The difference of two polynomials. -/
def sub (p q : List Int) : List Int :=
  trim (add p (smul (-1) q))

/-- The product of two polynomials. -/
def mul (p q : List Int) : List Int :=
  trim (mul_raw p q)

/-- The value at the assignment `σ`, which is read at the variable `x_0`. -/
def eval (σ : Nat → Int) : List Int → Int
  | [] => 0
  | a :: l => a + σ 0 * eval σ l

/-- The leading coefficient (`0` for the zero polynomial). -/
def lead (p : List Int) : Int :=
  (trim p).getLast?.getD 0

/-- The degree (`0` for the zero polynomial). -/
def degree (p : List Int) : Nat :=
  (trim p).length - 1

/-- The monomial `c * x_0 ^ k`. -/
def monomial (c : Int) (k : Nat) : List Int :=
  trim (List.replicate k 0 ++ [c])

/-- The multiple of the source that cancels the highest term of the target divisible
by the leading term of the source, if there is such a term. -/
def quot (t s : List Int) : Option (List Int) :=
  if trim s = [] then none
  else
    match (List.range t.length).reverse.find?
        (fun k => decide (degree s ≤ k ∧ t.getD k 0 ≠ 0 ∧ lead s ∣ t.getD k 0)) with
    | none => none
    | some k => some (monomial (t.getD k 0 / lead s) (k - degree s))

/-- The cofactors of the S-polynomial of two polynomials that both contain the
variable: they bring the two leading terms to their least common multiple. -/
def spoly (p q : List Int) : Option (List Int × List Int) :=
  if 1 ≤ degree p ∧ 1 ≤ degree q then
    some (monomial (lead q / (Int.gcd (lead p) (lead q) : Int)) (max (degree p) (degree q) - degree p),
          monomial (lead p / (Int.gcd (lead p) (lead q) : Int)) (max (degree p) (degree q) - degree q))
  else none

/-- The sample arithmetic. -/
def arith : pdd_arith upoly Int :=
  { eval := eval, sub := sub, mul := mul, quot := quot, spoly := spoly }

/-- The sample manager: the zero polynomial has no coefficient, a constant at most one;
the size is the number of coefficients and the ordering the lexicographic one. -/
def manager : pdd_manager upoly :=
  { is_zero := fun p => decide (trim p = [])
    is_val := fun p => decide ((trim p).length ≤ 1)
    tree_size := fun p => (trim p).length
    lt := fun p q => decide (p < q) }

/-- A freshly constructed engine over the sample manager: default configuration, no
equation. -/
def engine : grobner upoly fact_set :=
  { m := manager
    m_config := grobner.config.ctor
    m_solved := []
    m_processed := []
    m_to_simplify := []
    m_all_eqs := []
    m_conflict := none
    heap := fun _ => none
    next_addr := 0 }

/-- A sample derivation: `add(x - 1)` with fact `7`, `add(x * x - 1)` with fact `8`, the
superposition of the two, and the rewriting of the second by the first. -/
def derivation : List (grobner.op upoly) :=
  [grobner.op.add [-1, 1] (some [7]), grobner.op.add [-1, 0, 1] (some [8]),
    grobner.op.superpose 0 1, grobner.op.simplify_using 1 0]

end upoly

/-! ## Auxiliary facts -/

namespace grobner

variable {pdd u_dependency : Type}

theorem set_conflict_heap (g : grobner pdd u_dependency) (e a : Nat) :
    (g.set_conflict e).heap a =
      if a = e then (g.heap a).map (fun eq => eq.set_state eq_state.solved) else g.heap a :=
  rfl

theorem set_conflict_queue (g : grobner pdd u_dependency) (e : Nat) (st : eq_state) :
    (g.set_conflict e).queue st =
      if st = eq_state.solved then g.queue st ++ [e] else g.queue st := by
  cases st <;> rfl

theorem set_conflict_slot (g : grobner pdd u_dependency) (e : Nat) :
    (g.set_conflict e).m_conflict = some e :=
  rfl

end grobner

theorem pdd_tree.tree_size_full (n : Nat) :
    pdd_tree.tree_size (pdd_tree.full n) + 1 = 2 ^ (n + 1) := by
  induction n with
  | zero => rfl
  | succ k ih =>
    have h : pdd_tree.tree_size (pdd_tree.full (k + 1)) =
        1 + pdd_tree.tree_size (pdd_tree.full k) + pdd_tree.tree_size (pdd_tree.full k) := rfl
    rw [h, pow_succ]
    omega

/-! ## The claims -/

namespace grobner

variable {pdd u_dependency : Type}

/-- C1: `is_conflict(eq)` is true exactly when the polynomial of `eq` is a constant
(`is_val`) and is not the zero polynomial; so it is false for a non-constant polynomial
and for the zero polynomial. The pointer overload gives the same answer for the
equation it points to. -/
theorem is_conflict_iff (g : grobner pdd u_dependency) (eq : equation pdd u_dependency) :
    (g.is_conflict eq = true ↔ (g.m.is_val eq.poly = true ∧ g.m.is_zero eq.poly = false)) ∧
    (g.m.is_val eq.poly = false → g.is_conflict eq = false) ∧
    (g.m.is_zero eq.poly = true → g.is_conflict eq = false) ∧
    (∀ e, g.heap e = some eq → g.is_conflict_ptr e = some (g.is_conflict eq)) := by
  refine ⟨?_, ?_, ?_, ?_⟩
  · simp [is_conflict, is_trivial]
  · intro h
    simp [is_conflict, h]
  · intro h
    simp [is_conflict, is_trivial, h]
  · intro e h
    simp [is_conflict_ptr, h]

/-- C1, at concrete inputs: over the sample manager the constant `1` is a conflict,
the constant `0` and the polynomial `x_0 + 1` are not. -/
theorem is_conflict_iff_witness :
    sample.is_conflict (equation.ctor (pdd_tree.val 1) none) = true ∧
    sample.is_conflict (equation.ctor (pdd_tree.val 0) none) = false ∧
    sample.is_conflict (equation.ctor (pdd_tree.full 1) none) = false :=
  ⟨(is_conflict_iff sample (equation.ctor (pdd_tree.val 1) none)).1.2 ⟨rfl, rfl⟩,
   (is_conflict_iff sample (equation.ctor (pdd_tree.val 0) none)).2.2.1 rfl,
   (is_conflict_iff sample (equation.ctor (pdd_tree.full 1) none)).2.1 rfl⟩

/-- C2: after `set_conflict(eq)` the conflict slot refers to `eq`, the state field of
`eq` is `solved` (its other fields are as before), and `eq` is a member of the solved
collection. -/
theorem set_conflict_spec (g : grobner pdd u_dependency) (e : Nat)
    (eq : equation pdd u_dependency) (h : g.heap e = some eq) :
    (g.set_conflict e).m_conflict = some e ∧
    (g.set_conflict e).heap e = some (eq.set_state eq_state.solved) ∧
    ((g.set_conflict e).heap e).map equation.state = some eq_state.solved ∧
    e ∈ (g.set_conflict e).m_solved := by
  have hs : (g.set_conflict e).m_solved = g.m_solved ++ [e] := rfl
  refine ⟨rfl, ?_, ?_, ?_⟩
  · simp [set_conflict_heap, h]
  · simp [set_conflict_heap, h, equation.state, equation.set_state]
  · simp [hs]

/-- C2, at a concrete input: the engine holding the single equation `1 = 0` with
justification `7`, at address `0`. -/
theorem set_conflict_spec_witness :
    ((sample.add_dep (pdd_tree.val 1) (some 7)).set_conflict 0).m_conflict = some 0 ∧
    ((sample.add_dep (pdd_tree.val 1) (some 7)).set_conflict 0).heap 0 =
      some ((equation.ctor (pdd_tree.val 1) (some 7)).set_state eq_state.solved) ∧
    (((sample.add_dep (pdd_tree.val 1) (some 7)).set_conflict 0).heap 0).map equation.state =
      some eq_state.solved ∧
    0 ∈ ((sample.add_dep (pdd_tree.val 1) (some 7)).set_conflict 0).m_solved :=
  set_conflict_spec (sample.add_dep (pdd_tree.val 1) (some 7)) 0
    (equation.ctor (pdd_tree.val 1) (some 7)) rfl

/-- C3: `is_trivial(eq)` is true exactly when the polynomial of `eq` is the zero
polynomial; equations with the same polynomial get the same answer whatever their
state, index and justification. -/
theorem is_trivial_iff (g : grobner pdd u_dependency) (st : eq_state) (i : Nat) (p : pdd)
    (d : Option u_dependency) :
    (g.is_trivial (equation.mk st i p d) = true ↔ g.m.is_zero p = true) ∧
    (∀ (st2 : eq_state) (i2 : Nat) (d2 : Option u_dependency),
      g.is_trivial (equation.mk st2 i2 p d2) = g.is_trivial (equation.mk st i p d)) :=
  ⟨Iff.rfl, fun _ _ _ => rfl⟩

/-- C4: `is_too_complex(p)` is true exactly when `tree_size` of `p` is strictly above
the configured expression-size limit; at a size equal to the limit it is false; and
`is_too_complex(eq)` is `is_too_complex` of the polynomial of `eq`. -/
theorem is_too_complex_iff (g : grobner pdd u_dependency) (p : pdd)
    (eq : equation pdd u_dependency) :
    (g.is_too_complex_pdd p = true ↔ g.m_config.m_expr_size_limit < g.m.tree_size p) ∧
    (g.m.tree_size p = g.m_config.m_expr_size_limit → g.is_too_complex_pdd p = false) ∧
    g.is_too_complex eq = g.is_too_complex_pdd eq.poly := by
  refine ⟨?_, ?_, rfl⟩
  · simp [is_too_complex_pdd]
  · intro h
    simp [is_too_complex_pdd, h]

/-- C4, at concrete inputs: with the limit `3`, the polynomial `x_0 + 1` of size `3` is
not too complex and `(x_0 + 1) * (x_1 + 1)` of size `7` is. -/
theorem is_too_complex_iff_witness :
    (sample.assign_config { config.ctor with m_expr_size_limit := 3 }).is_too_complex_pdd
      (pdd_tree.full 1) = false ∧
    (sample.assign_config { config.ctor with m_expr_size_limit := 3 }).is_too_complex_pdd
      (pdd_tree.full 2) = true :=
  ⟨(is_too_complex_iff (sample.assign_config { config.ctor with m_expr_size_limit := 3 })
      (pdd_tree.full 1) (equation.ctor (pdd_tree.full 1) none)).2.1 rfl,
   (is_too_complex_iff (sample.assign_config { config.ctor with m_expr_size_limit := 3 })
      (pdd_tree.full 2) (equation.ctor (pdd_tree.full 2) none)).1.2 (by decide)⟩

/-- C5: the default-constructed `config` has both the equation-count threshold and the
expression-size limit at `UINT_MAX`, the largest `unsigned` value `2 ^ 32 - 1`, and the
algorithm `tuned`. -/
theorem config_ctor_spec :
    config.ctor.m_eqs_threshold = UINT_MAX ∧
    config.ctor.m_expr_size_limit = UINT_MAX ∧
    config.ctor.m_algorithm = config.algorithm.tuned ∧
    UINT_MAX = 2 ^ 32 - 1 ∧
    (∀ n : Nat, n < 2 ^ 32 → n ≤ UINT_MAX) := by
  refine ⟨rfl, rfl, rfl, by decide, ?_⟩
  intro n h
  simp only [UINT_MAX]
  omega

/-- C6, as stated, fails: in a freshly constructed engine (default configuration) the
polynomial `(x_0 + 1) * ... * (x_31 + 1)`, whose diagram has 33 distinct nodes and
whose `tree_size` is `2 ^ 33 - 1`, is too complex. -/
theorem is_too_complex_default_counterexample :
    sample.m_config = config.ctor ∧
    sample.m.tree_size (pdd_tree.full 32) = 2 ^ 33 - 1 ∧
    sample.is_too_complex_pdd (pdd_tree.full 32) = true := by
  have h := pdd_tree.tree_size_full 32
  have hs : sample.m.tree_size (pdd_tree.full 32) =
      pdd_tree.tree_size (pdd_tree.full 32) := rfl
  have hl : (sample : grobner pdd_tree Nat).m_config.m_expr_size_limit = 4294967295 := rfl
  refine ⟨rfl, ?_, ?_⟩
  · rw [hs]
    omega
  · simp only [is_too_complex_pdd, hs, hl, decide_eq_true_eq]
    omega

/-- C6, amended: under the default configuration `is_too_complex(p)` is false exactly for
the polynomials whose `tree_size` is at most `UINT_MAX`; the default limit is the
largest one an `unsigned` can hold, not the absence of a limit. -/
theorem is_too_complex_default (g : grobner pdd u_dependency) (p : pdd)
    (hc : g.m_config = config.ctor) :
    g.is_too_complex_pdd p = false ↔ g.m.tree_size p ≤ UINT_MAX := by
  simp [is_too_complex_pdd, hc, config.ctor]

/-- C6, amended, at a concrete input: in a freshly constructed engine the polynomial
`(x_0 + 1) * (x_1 + 1) * (x_2 + 1)` of size `15` is not too complex. -/
theorem is_too_complex_default_witness :
    sample.is_too_complex_pdd (pdd_tree.full 3) = false :=
  (is_too_complex_default sample (pdd_tree.full 3) rfl).2 (by decide)

/-- C7, as stated, fails: in the engine holding one equation, a member of `to_simplify`
with state `to_simplify` (the invariant holds), `set_conflict` of that equation leaves
it in `to_simplify` and also puts it in `solved`: the invariant is lost. -/
theorem set_conflict_invariant_counterexample :
    (sample.add (pdd_tree.val 1)).invariant ∧
    (sample.add (pdd_tree.val 1)).heap 0 = some (equation.ctor (pdd_tree.val 1) none) ∧
    0 ∈ ((sample.add (pdd_tree.val 1)).set_conflict 0).m_solved ∧
    0 ∈ ((sample.add (pdd_tree.val 1)).set_conflict 0).m_to_simplify ∧
    ¬ ((sample.add (pdd_tree.val 1)).set_conflict 0).invariant := by
  have hheap : ∀ a, (sample.add (pdd_tree.val 1)).heap a =
      if a = 0 then some (equation.ctor (pdd_tree.val 1) none) else none := by
    intro a
    by_cases ha : a = 0
    · subst ha
      rfl
    · simp [add, add_dep, push_equation, modify, sample, ha]
  have hq : ∀ st, (sample.add (pdd_tree.val 1)).queue st =
      if st = eq_state.to_simplify then [0] else [] := by
    intro st
    cases st <;> rfl
  refine ⟨?_, rfl, ?_, ?_, ?_⟩
  · intro a eq h
    rw [hheap] at h
    by_cases ha : a = 0
    · subst ha
      simp only [if_true, Option.some.injEq] at h
      subst h
      refine ⟨by simp [hq, equation.state, equation.ctor], ?_⟩
      intro st hst
      rw [hq] at hst
      by_cases h2 : st = eq_state.to_simplify
      · rw [h2]
        rfl
      · simp [h2] at hst
    · simp [ha] at h
  · decide
  · decide
  · intro hinv
    have h := (hinv 0 ((equation.ctor (pdd_tree.val 1) none).set_state eq_state.solved)
      rfl).2 eq_state.to_simplify (by decide)
    exact absurd h (by decide)

/-- C7, amended: `set_conflict(eq)` inserts `eq` into `solved` and removes it from no
collection. When every other live equation satisfies the membership invariant, the state
after `set_conflict(eq)` satisfies the invariant exactly when `eq` was not a member of
`to_simplify` or `processed` before the call; `eq` is then in `solved` and in no other
collection. -/
theorem set_conflict_invariant (g : grobner pdd u_dependency) (e : Nat)
    (eq : equation pdd u_dependency) (hlive : g.heap e = some eq)
    (hothers : ∀ a, a ≠ e → g.exclusive_at a) :
    ((g.set_conflict e).invariant ↔ (e ∉ g.m_to_simplify ∧ e ∉ g.m_processed)) ∧
    ((g.set_conflict e).invariant →
      e ∈ (g.set_conflict e).m_solved ∧ e ∉ (g.set_conflict e).m_to_simplify ∧
      e ∉ (g.set_conflict e).m_processed) := by
  have hpost : (g.set_conflict e).heap e = some (eq.set_state eq_state.solved) := by
    simp [set_conflict_heap, hlive]
  have hfwd : (g.set_conflict e).invariant → (e ∉ g.m_to_simplify ∧ e ∉ g.m_processed) := by
    intro hinv
    have hu := (hinv e _ hpost).2
    constructor
    · intro hmem
      have h := hu eq_state.to_simplify (by simpa [set_conflict_queue, queue] using hmem)
      simp [equation.state, equation.set_state] at h
    · intro hmem
      have h := hu eq_state.processed (by simpa [set_conflict_queue, queue] using hmem)
      simp [equation.state, equation.set_state] at h
  refine ⟨⟨hfwd, ?_⟩, ?_⟩
  · rintro ⟨hts, hpr⟩ a eqa ha
    by_cases hae : a = e
    · subst hae
      rw [hpost] at ha
      simp only [Option.some.injEq] at ha
      subst ha
      refine ⟨by simp [set_conflict_queue, equation.state, equation.set_state], ?_⟩
      intro st hst
      cases st with
      | solved => rfl
      | processed => exact absurd (by simpa [set_conflict_queue, queue] using hst) hpr
      | to_simplify => exact absurd (by simpa [set_conflict_queue, queue] using hst) hts
    · have hsame : g.heap a = some eqa := by
        simpa [set_conflict_heap, hae] using ha
      obtain ⟨hin, huniq⟩ := hothers a hae eqa hsame
      have hmem : ∀ st, a ∈ (g.set_conflict e).queue st ↔ a ∈ g.queue st := by
        intro st
        rw [set_conflict_queue]
        by_cases hst : st = eq_state.solved
        · simp [hst, hae]
        · simp [hst]
      exact ⟨(hmem _).2 hin, fun st hst => huniq st ((hmem st).1 hst)⟩
  · intro hinv
    obtain ⟨hts, hpr⟩ := hfwd hinv
    have hs : (g.set_conflict e).m_solved = g.m_solved ++ [e] := rfl
    exact ⟨by simp [hs], hts, hpr⟩

/-- C7, amended, at a concrete input: the engine holding one equation that has been
popped from `to_simplify`; after `set_conflict` the invariant holds and the equation is
in `solved` only. -/
theorem set_conflict_invariant_witness :
    ((sample.add (pdd_tree.val 1)).pop_equation 0).heap 0 =
      some (equation.ctor (pdd_tree.val 1) none) ∧
    (((sample.add (pdd_tree.val 1)).pop_equation 0).set_conflict 0).invariant ∧
    0 ∈ (((sample.add (pdd_tree.val 1)).pop_equation 0).set_conflict 0).m_solved ∧
    0 ∉ (((sample.add (pdd_tree.val 1)).pop_equation 0).set_conflict 0).m_to_simplify ∧
    0 ∉ (((sample.add (pdd_tree.val 1)).pop_equation 0).set_conflict 0).m_processed := by
  have hothers : ∀ a, a ≠ 0 → ((sample.add (pdd_tree.val 1)).pop_equation 0).exclusive_at a := by
    intro a ha eq h
    have hnone : ((sample.add (pdd_tree.val 1)).pop_equation 0).heap a = none := by
      have hh : ((sample.add (pdd_tree.val 1)).pop_equation 0).heap a =
          (sample.add (pdd_tree.val 1)).heap a := rfl
      rw [hh]
      simp [add, add_dep, push_equation, modify, sample, ha]
    rw [hnone] at h
    cases h
  have key := set_conflict_invariant ((sample.add (pdd_tree.val 1)).pop_equation 0) 0
    (equation.ctor (pdd_tree.val 1) none) rfl hothers
  have hinv := key.1.2 ⟨by decide, by decide⟩
  exact ⟨rfl, hinv, key.2 hinv⟩

/-- C8: `add(p)` is `add(p, nullptr)`: for every polynomial and every engine state, the
engine after `add(p)` is the engine after `add(p, d)` with `d` the null dependency. -/
theorem add_eq_add_dep_null (g : grobner pdd u_dependency) (p : pdd) :
    g.add p = g.add_dep p none :=
  rfl

/-- C9: a newly constructed `equation(p, d)` is in state `to_simplify`, its `poly()` is
`p` and its `dep()` is `d`; its index is `0`. -/
theorem equation_ctor_spec (p : pdd) (d : Option u_dependency) :
    (equation.ctor p d).state = eq_state.to_simplify ∧
    (equation.ctor p d).poly = p ∧
    (equation.ctor p d).dep = d ∧
    (equation.ctor p d).idx = 0 :=
  ⟨rfl, rfl, rfl, rfl⟩

/-- C10, as stated, fails: `set_index(5)` on a newly constructed equation, whose `idx()`
is `0`, makes `idx()` equal `5`. -/
theorem set_index_idx_counterexample :
    (equation.ctor (pdd_tree.val 1) (none : Option Nat)).idx = 0 ∧
    ((equation.ctor (pdd_tree.val 1) (none : Option Nat)).set_index 5).idx = 5 ∧
    ((equation.ctor (pdd_tree.val 1) (none : Option Nat)).set_index 5).idx ≠
      (equation.ctor (pdd_tree.val 1) (none : Option Nat)).idx :=
  ⟨rfl, rfl, by decide⟩

/-- C10, amended: replacing the polynomial, replacing the justification and `set_state`
leave `idx()` as it was; `set_index(i)` makes `idx()` equal `i`. -/
theorem idx_after_mutators (e : equation pdd u_dependency) (p : pdd)
    (d : Option u_dependency) (st : eq_state) (i : Nat) :
    (e.assign_poly p).idx = e.idx ∧
    (e.assign_dep d).idx = e.idx ∧
    (e.set_state st).idx = e.idx ∧
    (e.set_index i).idx = i :=
  ⟨rfl, rfl, rfl, rfl⟩

/-- C14: `check_conflict(eq)` returns exactly `is_conflict(eq)`; when it returns false
the engine is unchanged, and when it returns true the engine is the one `set_conflict(eq)`
produces, whose conflict slot refers to `eq`. -/
theorem check_conflict_spec (g : grobner pdd u_dependency) (e : Nat)
    (eq : equation pdd u_dependency) (h : g.heap e = some eq) :
    (g.check_conflict e).1 = g.is_conflict eq ∧
    ((g.check_conflict e).1 = false → (g.check_conflict e).2 = g) ∧
    ((g.check_conflict e).1 = true →
      (g.check_conflict e).2 = g.set_conflict e ∧
      (g.check_conflict e).2.m_conflict = some e) := by
  cases hc : g.is_conflict eq <;> simp [check_conflict, h, hc, set_conflict_slot]

/-- C14, at concrete inputs: in the engine holding the equation `1 = 0` at address `0`
the check succeeds and records it; in the engine holding `x_0 + 1 = 0` the check fails
and changes nothing. -/
theorem check_conflict_spec_witness :
    ((sample.add (pdd_tree.val 1)).check_conflict 0).1 = true ∧
    ((sample.add (pdd_tree.val 1)).check_conflict 0).2.m_conflict = some 0 ∧
    ((sample.add (pdd_tree.full 1)).check_conflict 0).1 = false ∧
    ((sample.add (pdd_tree.full 1)).check_conflict 0).2 = sample.add (pdd_tree.full 1) :=
  ⟨(check_conflict_spec (sample.add (pdd_tree.val 1)) 0
      (equation.ctor (pdd_tree.val 1) none) rfl).1,
   ((check_conflict_spec (sample.add (pdd_tree.val 1)) 0
      (equation.ctor (pdd_tree.val 1) none) rfl).2.2 rfl).2,
   (check_conflict_spec (sample.add (pdd_tree.full 1)) 0
      (equation.ctor (pdd_tree.full 1) none) rfl).1,
   (check_conflict_spec (sample.add (pdd_tree.full 1)) 0
      (equation.ctor (pdd_tree.full 1) none) rfl).2.1 rfl⟩

/-- C15: `is_trivial` and `is_conflict` never both hold of an equation, and of an
equation whose polynomial is a constant exactly one of them holds. -/
theorem is_trivial_is_conflict_exclusive (g : grobner pdd u_dependency)
    (eq : equation pdd u_dependency) :
    ¬ (g.is_trivial eq = true ∧ g.is_conflict eq = true) ∧
    (g.m.is_val eq.poly = true →
      (g.is_trivial eq = true ∨ g.is_conflict eq = true) ∧
      g.is_conflict eq = !g.is_trivial eq) := by
  constructor
  · rintro ⟨ht, hc⟩
    simp [is_conflict, ht] at hc
  · intro hv
    cases ht : g.is_trivial eq <;> simp [is_conflict, hv, ht]

/-- C15, at concrete inputs: of the constants `0` and `1` over the sample manager the
first is trivial and no conflict, the second a conflict and not trivial. -/
theorem is_trivial_is_conflict_exclusive_witness :
    (sample.is_trivial (equation.ctor (pdd_tree.val 0) none) = true ∧
      sample.is_conflict (equation.ctor (pdd_tree.val 0) none) = false) ∧
    (sample.is_trivial (equation.ctor (pdd_tree.val 1) none) = false ∧
      sample.is_conflict (equation.ctor (pdd_tree.val 1) none) = true) :=
  ⟨⟨rfl, ((is_trivial_is_conflict_exclusive sample
      (equation.ctor (pdd_tree.val 0) none)).2 rfl).2⟩,
   ⟨rfl, ((is_trivial_is_conflict_exclusive sample
      (equation.ctor (pdd_tree.val 1) none)).2 rfl).2⟩⟩

/-- C16: each mutator of an equation changes only its own field: assigning a polynomial
leaves state, index and justification and makes `poly()` the assigned value; assigning a
justification leaves state, index and polynomial and makes `dep()` the assigned value;
`set_state(st)` leaves index, polynomial and justification and makes `state()` equal
`st`. -/
theorem mutators_frame (e : equation pdd u_dependency) (p : pdd)
    (d : Option u_dependency) (st : eq_state) :
    ((e.assign_poly p).state = e.state ∧ (e.assign_poly p).idx = e.idx ∧
      (e.assign_poly p).dep = e.dep ∧ (e.assign_poly p).poly = p) ∧
    ((e.assign_dep d).state = e.state ∧ (e.assign_dep d).idx = e.idx ∧
      (e.assign_dep d).poly = e.poly ∧ (e.assign_dep d).dep = d) ∧
    ((e.set_state st).idx = e.idx ∧ (e.set_state st).poly = e.poly ∧
      (e.set_state st).dep = e.dep ∧ (e.set_state st).state = st) :=
  ⟨⟨rfl, rfl, rfl, rfl⟩, ⟨rfl, rfl, rfl, rfl⟩, ⟨rfl, rfl, rfl, rfl⟩⟩

/-- C17: for every configuration exactly one of `is_tuned()` and `is_basic()` is true,
`is_basic()` being the negation of `is_tuned()`; for the default configuration
`is_tuned()` is true. -/
theorem is_tuned_is_basic (g : grobner pdd u_dependency) :
    g.is_basic = !g.is_tuned ∧
    (g.is_tuned = true ∨ g.is_basic = true) ∧
    ¬ (g.is_tuned = true ∧ g.is_basic = true) ∧
    (g.assign_config config.ctor).is_tuned = true := by
  refine ⟨?_, ?_, ?_, rfl⟩ <;>
    cases h : g.m_config.m_algorithm <;> simp [is_tuned, is_basic, h]

end grobner

/-! ## Soundness of derivation -/

theorem dep_facts_join_left (d1 d2 : Option fact_set) :
    dep_facts d1 ⊆ dep_facts (mk_join d1 d2) := by
  cases d1 <;> cases d2 <;> simp [dep_facts, mk_join]

theorem dep_facts_join_right (d1 d2 : Option fact_set) :
    dep_facts d2 ⊆ dep_facts (mk_join d1 d2) := by
  cases d1 <;> cases d2 <;> simp [dep_facts, mk_join]

namespace upoly

theorem eval_trim (σ : Nat → Int) (l : List Int) : eval σ (trim l) = eval σ l := by
  induction l with
  | nil => rfl
  | cons a l ih =>
    by_cases h : trim l = [] ∧ a = 0
    · have h0 : eval σ l = 0 := by rw [← ih, h.1]; rfl
      simp [trim, h, eval, h0]
    · simp [trim, h, eval, ih]

theorem eval_add (σ : Nat → Int) (p q : List Int) :
    eval σ (add p q) = eval σ p + eval σ q := by
  induction p generalizing q with
  | nil => simp [add, eval]
  | cons a p ih =>
    cases q with
    | nil => simp [add, eval]
    | cons b q =>
      simp only [add, eval, ih]
      ring

theorem eval_smul (σ : Nat → Int) (c : Int) (p : List Int) :
    eval σ (smul c p) = c * eval σ p := by
  induction p with
  | nil => simp [smul, eval]
  | cons a p ih =>
    have h : smul c (a :: p) = (c * a) :: smul c p := rfl
    rw [h]
    simp only [eval, ih]
    ring

theorem eval_mul_raw (σ : Nat → Int) (p q : List Int) :
    eval σ (mul_raw p q) = eval σ p * eval σ q := by
  induction p with
  | nil => simp [mul_raw, eval]
  | cons a p ih =>
    simp only [mul_raw, eval_add, eval_smul, eval, ih]
    ring

theorem lt_strict_total :
    IsStrictTotalOrder upoly (fun p q => manager.lt p q = true) := by
  have h : (fun p q : upoly => manager.lt p q = true) = (fun p q : List Int => p < q) := by
    funext p q
    simp [manager]
  rw [h]
  infer_instance

theorem arith_lawful : arith.lawful := by
  constructor
  · intro σ p q
    show eval σ (sub p q) = eval σ p - eval σ q
    simp only [sub, eval_trim, eval_add, eval_smul]
    ring
  · intro σ p q
    show eval σ (mul p q) = eval σ p * eval σ q
    simp only [mul, eval_trim, eval_mul_raw]

end upoly

namespace grobner

variable {pdd R : Type}

theorem satisfies_mono [Zero R] (A : pdd_arith pdd R) (σ : Nat → R)
    (inputs inputs2 : List (pdd × Option fact_set)) (d d2 : Option fact_set)
    (hi : inputs ⊆ inputs2) (hd : dep_facts d ⊆ dep_facts d2)
    (h : satisfies A σ inputs2 d2) : satisfies A σ inputs d :=
  fun p dp hp hsub => h p dp (hi hp) (fun _ hx => hd (hsub hx))

theorem sound_mono [Zero R] (A : pdd_arith pdd R)
    (inputs inputs2 : List (pdd × Option fact_set)) (g : grobner pdd fact_set)
    (hi : inputs ⊆ inputs2) (h : sound A inputs g) : sound A inputs2 g :=
  fun a eq ha σ hs =>
    h a eq ha σ (satisfies_mono A σ inputs inputs2 eq.dep eq.dep hi (fun _ hx => hx) hs)

/-- A state whose store holds only equations that an earlier sound state held, up to
their state and index fields, is sound. -/
theorem sound_of_frame [Zero R] (A : pdd_arith pdd R)
    (inputs : List (pdd × Option fact_set)) (g g2 : grobner pdd fact_set)
    (hf : ∀ a eq2, g2.heap a = some eq2 →
      ∃ eq, g.heap a = some eq ∧ eq.poly = eq2.poly ∧ eq.dep = eq2.dep)
    (h : sound A inputs g) : sound A inputs g2 := by
  intro a eq2 ha σ hs
  obtain ⟨eq, hg, hp, hd⟩ := hf a eq2 ha
  rw [← hp]
  exact h a eq hg σ (hd ▸ hs)

theorem sound_push_equation [Zero R] (A : pdd_arith pdd R)
    (inputs : List (pdd × Option fact_set)) (g : grobner pdd fact_set) (st : eq_state)
    (e : Nat) (h : sound A inputs g) : sound A inputs (g.push_equation st e) := by
  apply sound_of_frame A inputs g _ _ h
  intro a eq2 ha
  have hh : (g.push_equation st e).heap a =
      if a = e then (g.heap a).map (fun eq => eq.set_state st) else g.heap a := by
    cases st <;> rfl
  rw [hh] at ha
  by_cases hae : a = e
  · simp only [hae, if_true] at ha
    cases hg : g.heap e with
    | none => simp [hg] at ha
    | some eq =>
      simp only [hg, Option.map_some', Option.some.injEq] at ha
      subst ha
      exact ⟨eq, by rw [hae, hg], rfl, rfl⟩
  · simp only [hae, if_false] at ha
    exact ⟨eq2, ha, rfl, rfl⟩

theorem sound_pop_equation [Zero R] (A : pdd_arith pdd R)
    (inputs : List (pdd × Option fact_set)) (g : grobner pdd fact_set)
    (e : Nat) (h : sound A inputs g) : sound A inputs (g.pop_equation e) := by
  apply sound_of_frame A inputs g _ _ h
  intro a eq2 ha
  have hh : (g.pop_equation e).heap = g.heap := by
    unfold pop_equation
    cases g.heap e with
    | none => rfl
    | some eq => cases hs : eq.state <;> simp [hs]
  rw [hh] at ha
  exact ⟨eq2, ha, rfl, rfl⟩

theorem sound_check_conflict [Zero R] (A : pdd_arith pdd R)
    (inputs : List (pdd × Option fact_set)) (g : grobner pdd fact_set)
    (e : Nat) (h : sound A inputs g) : sound A inputs (g.check_conflict e).2 := by
  unfold check_conflict
  cases hg : g.heap e with
  | none => exact h
  | some eq =>
    by_cases hc : g.is_conflict eq = true
    · simp only [hc, if_true]
      have hs : sound A inputs { g with m_conflict := some e } := fun a eq ha => h a eq ha
      exact sound_push_equation A inputs _ eq_state.solved e hs
    · simp only [hc]
      exact h

theorem sound_retire [Zero R] (A : pdd_arith pdd R)
    (inputs : List (pdd × Option fact_set)) (g : grobner pdd fact_set)
    (e : Nat) (h : sound A inputs g) : sound A inputs (g.retire e) := by
  apply sound_of_frame A inputs g _ _ h
  intro a eq2 ha
  have hh : (g.retire e).heap a = if a = e then none else g.heap a := rfl
  rw [hh] at ha
  by_cases hae : a = e
  · simp [hae] at ha
  · simp only [hae, if_false] at ha
    exact ⟨eq2, ha, rfl, rfl⟩

/-- Registering an equation whose polynomial is zero wherever its justification is
satisfied keeps the state sound. -/
theorem sound_add_dep [Zero R] (A : pdd_arith pdd R)
    (inputs : List (pdd × Option fact_set)) (g : grobner pdd fact_set) (p : pdd)
    (d : Option fact_set) (hp : ∀ σ, satisfies A σ inputs d → A.eval σ p = 0)
    (h : sound A inputs g) : sound A inputs (g.add_dep p d) := by
  intro a eq2 ha σ hs
  have hh : (g.add_dep p d).heap a =
      if a = g.next_addr then
        some (((equation.ctor p d).set_index g.m_all_eqs.length).set_state
          eq_state.to_simplify)
      else g.heap a := by
    by_cases hae : a = g.next_addr <;> simp [add_dep, push_equation, modify, hae]
  rw [hh] at ha
  by_cases hae : a = g.next_addr
  · simp only [hae, if_true, Option.some.injEq] at ha
    subst ha
    exact hp σ hs
  · simp only [hae, if_false] at ha
    exact h a eq2 ha σ hs

theorem sound_try_simplify_using [CommRing R] (A : pdd_arith pdd R) (hA : A.lawful)
    (inputs : List (pdd × Option fact_set)) (g : grobner pdd fact_set)
    (target source : Nat) (h : sound A inputs g) :
    sound A inputs (g.try_simplify_using A target source).2 := by
  cases ht : g.heap target with
  | none =>
    have hr : (g.try_simplify_using A target source).2 = g := by
      simp [try_simplify_using, ht]
    rw [hr]
    exact h
  | some t =>
    cases hs : g.heap source with
    | none =>
      have hr : (g.try_simplify_using A target source).2 = g := by
        simp [try_simplify_using, ht, hs]
      rw [hr]
      exact h
    | some s =>
      cases hq : A.quot t.poly s.poly with
      | none =>
        have hr : (g.try_simplify_using A target source).2 = g := by
          simp [try_simplify_using, ht, hs, hq]
        rw [hr]
        exact h
      | some q =>
        have hr : (g.try_simplify_using A target source).2 =
            g.modify target (fun eq =>
              (eq.assign_poly (A.sub t.poly (A.mul q s.poly))).assign_dep
                (mk_join t.dep s.dep)) := by
          simp [try_simplify_using, ht, hs, hq]
        rw [hr]
        intro a eq2 ha σ hsat
        have hh : (g.modify target (fun eq =>
            (eq.assign_poly (A.sub t.poly (A.mul q s.poly))).assign_dep
              (mk_join t.dep s.dep))).heap a =
            if a = target then (g.heap a).map (fun eq =>
              (eq.assign_poly (A.sub t.poly (A.mul q s.poly))).assign_dep
                (mk_join t.dep s.dep))
            else g.heap a := rfl
        rw [hh] at ha
        by_cases hae : a = target
        · simp only [hae, if_true, ht, Option.map_some', Option.some.injEq] at ha
          subst ha
          have h1 := h target t ht σ (satisfies_mono A σ inputs inputs _ _
            (fun _ hx => hx) (dep_facts_join_left t.dep s.dep) hsat)
          have h2 := h source s hs σ (satisfies_mono A σ inputs inputs _ _
            (fun _ hx => hx) (dep_facts_join_right t.dep s.dep) hsat)
          show A.eval σ (A.sub t.poly (A.mul q s.poly)) = 0
          rw [hA.1, hA.2, h1, h2]
          simp
        · simp only [hae, if_false] at ha
          exact h a eq2 ha σ hsat

theorem sound_superpose [CommRing R] (A : pdd_arith pdd R) (hA : A.lawful)
    (inputs : List (pdd × Option fact_set)) (g : grobner pdd fact_set)
    (e1 e2 : Nat) (h : sound A inputs g) : sound A inputs (g.superpose A e1 e2) := by
  cases h1 : g.heap e1 with
  | none =>
    have hr : g.superpose A e1 e2 = g := by simp [superpose, h1]
    rw [hr]
    exact h
  | some eq1 =>
    cases h2 : g.heap e2 with
    | none =>
      have hr : g.superpose A e1 e2 = g := by simp [superpose, h1, h2]
      rw [hr]
      exact h
    | some eq2 =>
      cases hq : A.spoly eq1.poly eq2.poly with
      | none =>
        have hr : g.superpose A e1 e2 = g := by simp [superpose, h1, h2, hq]
        rw [hr]
        exact h
      | some ab =>
        obtain ⟨a, b⟩ := ab
        have hr : g.superpose A e1 e2 =
            if (g.m.is_zero (A.sub (A.mul a eq1.poly) (A.mul b eq2.poly)) ||
                g.is_too_complex_pdd (A.sub (A.mul a eq1.poly) (A.mul b eq2.poly))) = true
            then g
            else g.add_dep (A.sub (A.mul a eq1.poly) (A.mul b eq2.poly))
              (mk_join eq1.dep eq2.dep) := by
          simp [superpose, h1, h2, hq]
        rw [hr]
        split
        · exact h
        · apply sound_add_dep A inputs g _ _ _ h
          intro σ hsat
          have k1 := h e1 eq1 h1 σ (satisfies_mono A σ inputs inputs _ _
            (fun _ hx => hx) (dep_facts_join_left eq1.dep eq2.dep) hsat)
          have k2 := h e2 eq2 h2 σ (satisfies_mono A σ inputs inputs _ _
            (fun _ hx => hx) (dep_facts_join_right eq1.dep eq2.dep) hsat)
          rw [hA.1, hA.2, hA.2, k1, k2]
          simp

theorem asserted_cons (o : op pdd) (ops : List (op pdd)) :
    asserted (o :: ops) = asserted [o] ++ asserted ops := by
  cases o <;> rfl

theorem sound_exec [CommRing R] (A : pdd_arith pdd R) (hA : A.lawful)
    (inputs : List (pdd × Option fact_set)) (g : grobner pdd fact_set) (o : op pdd)
    (h : sound A inputs g) : sound A (inputs ++ asserted [o]) (exec A g o) := by
  have hsub : inputs ⊆ inputs ++ asserted [o] := List.subset_append_left _ _
  have h2 := sound_mono A inputs (inputs ++ asserted [o]) g hsub h
  cases o with
  | add p d =>
    apply sound_add_dep A _ g p d _ h2
    intro σ hsat
    exact hsat p d (by simp [asserted]) (fun _ hx => hx)
  | simplify_using target source => exact sound_try_simplify_using A hA _ g target source h2
  | superpose e1 e2 => exact sound_superpose A hA _ g e1 e2 h2
  | push_equation st e => exact sound_push_equation A _ g st e h2
  | pop_equation e => exact sound_pop_equation A _ g e h2
  | check_conflict e => exact sound_check_conflict A _ g e h2
  | retire e => exact sound_retire A _ g e h2

theorem sound_run [CommRing R] (A : pdd_arith pdd R) (hA : A.lawful)
    (ops : List (op pdd)) (inputs : List (pdd × Option fact_set))
    (g : grobner pdd fact_set) (h : sound A inputs g) :
    sound A (inputs ++ asserted ops) (run A g ops) := by
  induction ops generalizing inputs g with
  | nil => simpa [run, asserted] using h
  | cons o ops ih =>
    have h1 := ih (inputs ++ asserted [o]) (exec A g o) (sound_exec A hA inputs g o h)
    rw [asserted_cons, ← List.append_assoc]
    exact h1

/-! ## The claims on derivation and ordering -/

/-- C11: soundness. Starting from an engine holding no equation, after any sequence of
the operations that produce and derive equations (the caller's `add`, rewriting by
`simplify_using`, `superpose`, and the moves between collections), the polynomial of
every equation in the store has value zero under every assignment that satisfies the
asserted equalities named by the justification of the equation. -/
theorem soundness [CommRing R] (A : pdd_arith pdd R) (hA : A.lawful)
    (g : grobner pdd fact_set) (hg : ∀ a, g.heap a = none) (ops : List (op pdd)) :
    ∀ a eq, (run A g ops).heap a = some eq →
      ∀ σ, satisfies A σ (asserted ops) eq.dep → A.eval σ eq.poly = 0 := by
  have h0 : sound A [] g := by
    intro a eq ha
    rw [hg a] at ha
    cases ha
  have h := sound_run A hA ops [] g h0
  simpa using h

/-- C11, at a concrete input: over the integer polynomials in one variable, the engine
after `add(x - 1)` with fact `7`, `add(x * x - 1)` with fact `8`, a superposition of the
two and a rewriting of the second by the first. The second equation has become `x - 1`
with both facts; the assignment `x = 1` satisfies both asserted equalities and makes it
zero. -/
theorem soundness_witness :
    upoly.arith.lawful ∧ (∀ a, upoly.engine.heap a = none) ∧
    (run upoly.arith upoly.engine upoly.derivation).heap 1 =
      some (equation.mk eq_state.to_simplify 1 [-1, 1] (some [8, 7])) ∧
    satisfies upoly.arith (fun _ => 1) (asserted upoly.derivation) (some [8, 7]) ∧
    upoly.arith.eval (fun _ => 1) [-1, 1] = 0 := by
  have hheap : (run upoly.arith upoly.engine upoly.derivation).heap 1 =
      some (equation.mk eq_state.to_simplify 1 [-1, 1] (some [8, 7])) := by decide
  have hsat : satisfies upoly.arith (fun _ => 1) (asserted upoly.derivation)
      (some [8, 7]) := by
    intro p dp hp _
    have hin : (p, dp) = (([-1, 1] : upoly), (some [7] : Option fact_set)) ∨
        (p, dp) = (([-1, 0, 1] : upoly), (some [8] : Option fact_set)) := by
      simpa [upoly.derivation, asserted] using hp
    rcases hin with h | h <;>
      · cases h
        decide
  exact ⟨upoly.arith_lawful, fun _ => rfl, hheap, hsat,
    soundness upoly.arith upoly.arith_lawful upoly.engine (fun _ => rfl) upoly.derivation
      1 (equation.mk eq_state.to_simplify 1 [-1, 1] (some [8, 7])) hheap (fun _ => 1) hsat⟩

/-- C13: `is_simpler(e1, e2)` holds exactly when `poly(e1) < poly(e2)` in the ordering
of the polynomial manager, whatever the justifications, states and indices; that
ordering being a strict total order, `is_simpler(e, e)` is false and `is_simpler(e1, e2)`
and `is_simpler(e2, e1)` never both hold. -/
theorem is_simpler_spec {u_dependency : Type} (g : grobner pdd u_dependency)
    (hord : IsStrictTotalOrder pdd (fun p q => g.m.lt p q = true))
    (e1 e2 : equation pdd u_dependency) :
    (g.is_simpler e1 e2 = true ↔ g.m.lt e1.poly e2.poly = true) ∧
    (∀ (st1 st2 : eq_state) (i1 i2 : Nat) (d1 d2 : Option u_dependency),
      g.is_simpler (equation.mk st1 i1 e1.poly d1) (equation.mk st2 i2 e2.poly d2) =
        g.is_simpler e1 e2) ∧
    g.is_simpler e1 e1 = false ∧
    ¬ (g.is_simpler e1 e2 = true ∧ g.is_simpler e2 e1 = true) := by
  refine ⟨Iff.rfl, fun _ _ _ _ _ _ => rfl, ?_, ?_⟩
  · have h := hord.irrefl e1.poly
    simpa [is_simpler] using h
  · rintro ⟨h12, h21⟩
    exact hord.irrefl e1.poly (hord.trans e1.poly e2.poly e1.poly h12 h21)

/-- C13, at a concrete input: over the integer polynomials in one variable with the
lexicographic ordering of the coefficient lists, `x - 2` is simpler than `x - 1` and not
the other way round. -/
theorem is_simpler_spec_witness :
    IsStrictTotalOrder upoly (fun p q => upoly.engine.m.lt p q = true) ∧
    upoly.engine.is_simpler (equation.ctor [-2, 1] (some [8]))
      (equation.ctor [-1, 1] (some [7])) = true ∧
    upoly.engine.is_simpler (equation.ctor [-1, 1] (some [7]))
      (equation.ctor [-2, 1] (some [8])) = false ∧
    upoly.engine.is_simpler (equation.ctor [-1, 1] (some [7]))
      (equation.ctor [-1, 1] (some [7])) = false := by
  have h := is_simpler_spec upoly.engine upoly.lt_strict_total
    (equation.ctor [-2, 1] (some [8])) (equation.ctor [-1, 1] (some [7]))
  have h1 : upoly.engine.is_simpler (equation.ctor [-2, 1] (some [8]))
      (equation.ctor [-1, 1] (some [7])) = true := by decide
  refine ⟨upoly.lt_strict_total, h1, ?_, ?_⟩
  · cases h2 : upoly.engine.is_simpler (equation.ctor [-1, 1] (some [7]))
        (equation.ctor [-2, 1] (some [8]))
    · rfl
    · exact absurd ⟨h1, h2⟩ h.2.2.2
  · exact (is_simpler_spec upoly.engine upoly.lt_strict_total
      (equation.ctor [-1, 1] (some [7])) (equation.ctor [-1, 1] (some [7]))).2.2.1

end grobner

end dd
